import Mathlib

/-!
Shallow embedding of the atomex lock-free toolkit (Rust sources under
src/): the three-outcome CAS result type (src/cmpxch_result_.rs), the
atomic-cell primitives (src/atomic_cell_.rs, delegating to the native
atomics whose contract is documented on the trait itself), the
predicate/transform spin-retry engine (src/atomic_flags_.rs), the
single-slot atomic pointer built on it (src/atomex_ptr_.rs) and the
wrapping counter (src/atomic_count_.rs, src/fetch.rs).

Modelling conventions: the atomic cell is explicit state passing (a value
of the cell type threaded through every operation); Rust `Result<T, E>` is
`Except E T` (`Except.ok` for `Ok`, `Except.error` for `Err`); a weak CAS
takes a boolean saying whether this attempt fails spuriously; a spin loop
takes a finite schedule of steps, each carrying the interference other
threads apply to the cell before the attempt and the spurious flag of the
attempt, and returns `none` when the schedule is exhausted before the loop
exits (the Rust loop would still be spinning).  Memory orderings select
synchronisation strength only and have no effect in this interleaving
model, so they are not represented.  Raw pointers `*mut T` are modelled as
natural numbers with `0` as the null pointer.
-/

/-- The three-outcome CAS result, from src/cmpxch_result_.rs: `Succ` when
the compare-exchange updated the value, `Fail` when it lost to contention,
`Unexpected` when the value failed the predicate and no CAS was attempted. -/
inductive CmpxchResult (T : Type) where
  | Succ : T → CmpxchResult T
  | Fail : T → CmpxchResult T
  | Unexpected : T → CmpxchResult T
deriving DecidableEq, Repr

namespace CmpxchResult

/-- Mirrors `CmpxchResult::into_inner`: the carried value, whatever the tag. -/
def into_inner {T : Type} : CmpxchResult T → T
  | Succ t => t
  | Fail t => t
  | Unexpected t => t

/-- Mirrors `CmpxchResult::is_succ`. -/
def is_succ {T : Type} : CmpxchResult T → Bool
  | Succ _ => true
  | _ => false

/-- Mirrors `CmpxchResult::is_fail`. -/
def is_fail {T : Type} : CmpxchResult T → Bool
  | Fail _ => true
  | _ => false

/-- Mirrors `CmpxchResult::is_unexpected`. -/
def is_unexpected {T : Type} : CmpxchResult T → Bool
  | Unexpected _ => true
  | _ => false

/-- Mirrors the `From<CmpxchResult<T>> for Result<T, T>` impl in
src/cmpxch_result_.rs: `Succ` becomes `Ok`, both `Fail` and `Unexpected`
become `Err`, the carried value passing through unchanged. -/
def toResult {T : Type} : CmpxchResult T → Except T T
  | Succ t => Except.ok t
  | Fail t => Except.error t
  | Unexpected t => Except.error t

end CmpxchResult

namespace AtomicCell

/-- Atomic load (src/atomic_cell_.rs `TrAtomicCell::load`): returns the
stored value and leaves the cell unchanged. -/
def load {T : Type} (st : T) : T × T := (st, st)

/-- Strong compare-exchange, the contract documented on
`TrAtomicCell::compare_exchange` in src/atomic_cell_.rs (delegating to the
native atomic): stores `desired` if the cell holds `current`; the result
carries the previous value, which on success is guaranteed equal to
`current`. -/
def compare_exchange {T : Type} [DecidableEq T] (st current desired : T) :
    Except T T × T :=
  if st = current then (Except.ok st, desired) else (Except.error st, st)

/-- Weak compare-exchange (`TrAtomicCell::compare_exchange_weak`): like
`compare_exchange` but allowed to fail spuriously even when the comparison
succeeds; the `spurious` flag says whether this attempt does. -/
def compare_exchange_weak {T : Type} [DecidableEq T]
    (st current desired : T) (spurious : Bool) : Except T T × T :=
  if spurious then (Except.error st, st)
  else compare_exchange st current desired

end AtomicCell

/-- Mirrors `TrAtomicFlags::try_once_compare_exchange_weak`
(src/atomic_flags_.rs lines 49-73): if `expect current` is false, return
`Unexpected current` without touching the cell; otherwise perform one weak
CAS from `current` to `desire current`, classifying `Ok` as `Succ` and
`Err` as `Fail` with the value the CAS reported. -/
def try_once_compare_exchange_weak {T : Type} [DecidableEq T]
    (st current : T) (expect : T → Bool) (desire : T → T)
    (spurious : Bool) : CmpxchResult T × T :=
  if ! (expect current) then (CmpxchResult.Unexpected current, st)
  else
    let desired := desire current
    match AtomicCell.compare_exchange_weak st current desired spurious with
    | (Except.ok x, st2) => (CmpxchResult.Succ x, st2)
    | (Except.error x, st2) => (CmpxchResult.Fail x, st2)

/-- One step of the environment a spin loop runs under: `env` is the
rewrite other threads apply to the cell before this attempt, `spurious`
whether the attempt's weak CAS fails spuriously. -/
structure SpinStep (T : Type) where
  env : T → T
  spurious : Bool

/-- A spin step with no interference from other threads. -/
def SpinStep.quiet {T : Type} (b : Bool) : SpinStep T := ⟨id, b⟩

/-- The loop body of `TrAtomicFlags::try_spin_compare_exchange_weak`
(src/atomic_flags_.rs lines 35-46): call `try_once` with the latest
observed value, feed the value carried by a `Fail` result back in as
`current`, and stop at anything else.  The schedule bounds how many
attempts we can observe; `none` means the loop was still spinning when the
schedule ran out. -/
def try_spin_aux {T : Type} [DecidableEq T]
    (expect : T → Bool) (desire : T → T) :
    List (SpinStep T) → T → T → Option (CmpxchResult T × T)
  | [], _, _ => none
  | step :: rest, st, current =>
    match try_once_compare_exchange_weak
        (step.env st) current expect desire step.spurious with
    | (CmpxchResult.Succ x, st2) => some (CmpxchResult.Succ x, st2)
    | (CmpxchResult.Unexpected x, st2) =>
        some (CmpxchResult.Unexpected x, st2)
    | (CmpxchResult.Fail x, st2) => try_spin_aux expect desire rest st2 x

/-- Mirrors `TrAtomicFlags::try_spin_compare_exchange_weak`
(src/atomic_flags_.rs lines 24-47): load the current value with the load
ordering, then loop as in `try_spin_aux`. -/
def try_spin_compare_exchange_weak {T : Type} [DecidableEq T]
    (st : T) (expect : T → Bool) (desire : T → T)
    (sched : List (SpinStep T)) : Option (CmpxchResult T × T) :=
  try_spin_aux expect desire sched st (AtomicCell.load st).1

/-- Raw pointers `*mut T` are modelled as addresses. -/
abbrev Ptr : Type := Nat

/-- The null pointer, `ptr::null_mut()`. -/
def Ptr.null : Ptr := 0

/-- Mirrors `<*mut T>::is_null`. -/
def Ptr.is_null (p : Ptr) : Bool := p == Ptr.null

/-- Model of `core::ptr::NonNull<T>`: a wrapper around a raw pointer.  The
sources build it with `NonNull::new_unchecked`, which does not check, so no
invariant is carried here either. -/
structure NonNullPtr where
  ptr : Ptr
deriving DecidableEq, Repr

/-- Mirrors `NonNull::new`: `None` on the null pointer, otherwise `Some` of
the wrapper around the same address. -/
def NonNullPtr.new (p : Ptr) : Option NonNullPtr :=
  if p = Ptr.null then none else some ⟨p⟩

/-- Mirrors `NonNull::new_unchecked`: wrap without checking. -/
def NonNullPtr.new_unchecked (p : Ptr) : NonNullPtr := ⟨p⟩

namespace AtomexPtr

/-- Mirrors `AtomexPtr::pointer` (src/atomex_ptr_.rs lines 29-32): an
atomic load of the raw pointer. -/
def pointer (st : Ptr) : Ptr × Ptr := AtomicCell.load st

/-- Mirrors `AtomexPtr::load` (src/atomex_ptr_.rs lines 34-37):
`NonNull::new(self.pointer())`. -/
def load (st : Ptr) : Option NonNullPtr × Ptr :=
  let r := pointer st
  (NonNullPtr.new r.1, r.2)

/-- The predicate of `try_reset`, its local fn `expect_not_null`. -/
def expect_not_null (p : Ptr) : Bool := ! (Ptr.is_null p)

/-- The transform of `try_reset` and of `try_spin_compare_and_reset`,
the local fn `desire_ptr_null`: ignore the input, produce null. -/
def desire_ptr_null (_ : Ptr) : Ptr := Ptr.null

/-- Mirrors `AtomexPtr::try_reset` (src/atomex_ptr_.rs lines 81-95): spin
with predicate "is non-null" and transform "produce null", convert the
outcome to a binary result and wrap the `Ok` pointer as `NonNull`. -/
def try_reset (st : Ptr) (sched : List (SpinStep Ptr)) :
    Option (Except Ptr NonNullPtr × Ptr) :=
  match try_spin_compare_exchange_weak st expect_not_null desire_ptr_null
      sched with
  | none => none
  | some (r, st2) =>
      some ((CmpxchResult.toResult r).map NonNullPtr.new_unchecked, st2)

/-- Mirrors `AtomexPtr::try_spin_compare_and_reset` (src/atomex_ptr_.rs
lines 99-110): spin with predicate "pointer-equal to `p`" and transform
"produce null", wrapping the `Ok` pointer as `NonNull`. -/
def try_spin_compare_and_reset (st : Ptr) (p : NonNullPtr)
    (sched : List (SpinStep Ptr)) :
    Option (Except Ptr NonNullPtr × Ptr) :=
  let expect := fun x : Ptr => x == p.ptr
  match try_spin_compare_exchange_weak st expect desire_ptr_null sched with
  | none => none
  | some (r, st2) =>
      some ((CmpxchResult.toResult r).map NonNullPtr.new_unchecked, st2)

/-- Mirrors `AtomexPtr::try_spin_init` (src/atomex_ptr_.rs lines 116-124):
spin with predicate "is null" and transform "produce `init`", wrapping the
`Err` pointer (the occupant a loser observed) as `NonNull`. -/
def try_spin_init (st : Ptr) (init : NonNullPtr)
    (sched : List (SpinStep Ptr)) :
    Option (Except NonNullPtr Ptr × Ptr) :=
  let p := init.ptr
  let expect := fun x : Ptr => Ptr.is_null x
  let desire := fun _ : Ptr => p
  match try_spin_compare_exchange_weak st expect desire sched with
  | none => none
  | some (r, st2) =>
      some ((CmpxchResult.toResult r).mapError NonNullPtr.new_unchecked, st2)

end AtomexPtr

namespace AtomicCount

/-- Native `fetch_add` contract (src/fetch.rs lines 77-90): adds to the
current value, wrapping around on overflow of the `w`-bit width, and
returns the previous value. -/
def fetch_add (w st v : Nat) : Nat × Nat := (st, (st + v) % 2 ^ w)

/-- Native `fetch_sub` contract (src/fetch.rs lines 92-105): subtracts
from the current value, wrapping around on overflow of the `w`-bit width,
and returns the previous value. -/
def fetch_sub (w st v : Nat) : Nat × Nat :=
  (st, (st + (2 ^ w - v % 2 ^ w)) % 2 ^ w)

/-- Mirrors `AtomicCount::add` (src/atomic_count_.rs lines 57-59). -/
def add (w st v : Nat) : Nat × Nat := fetch_add w st v

/-- Mirrors `AtomicCount::inc`: `add(V::ONE)`. -/
def inc (w st : Nat) : Nat × Nat := add w st 1

/-- Mirrors `AtomicCount::sub` (src/atomic_count_.rs lines 66-68). -/
def sub (w st v : Nat) : Nat × Nat := fetch_sub w st v

/-- Mirrors `AtomicCount::dec`: `sub(V::ONE)`. -/
def dec (w st : Nat) : Nat × Nat := sub w st 1

/-- Mirrors `AtomicCount::val`: a relaxed load. -/
def val (st : Nat) : Nat := (AtomicCell.load st).1

end AtomicCount

/-- One call in a sequence of counter operations. -/
inductive CountOp where
  | inc : CountOp
  | dec : CountOp
deriving DecidableEq, Repr

/-- Run a sequence of `inc`/`dec` calls on a `w`-bit counter, returning
the final stored value. -/
def runCountOps (w : Nat) : List CountOp → Nat → Nat
  | [], st => st
  | CountOp.inc :: rest, st => runCountOps w rest (AtomicCount.inc w st).2
  | CountOp.dec :: rest, st => runCountOps w rest (AtomicCount.dec w st).2

/-- Number of `inc` calls in a sequence. -/
def countInc : List CountOp → Nat
  | [] => 0
  | CountOp.inc :: rest => countInc rest + 1
  | CountOp.dec :: rest => countInc rest

/-- Number of `dec` calls in a sequence. -/
def countDec : List CountOp → Nat
  | [] => 0
  | CountOp.inc :: rest => countDec rest
  | CountOp.dec :: rest => countDec rest + 1

section TryOnceLemmas

variable {T : Type} [DecidableEq T]

theorem try_once_expect_false {st current : T} {expect : T → Bool}
    {desire : T → T} {b : Bool} (h : expect current = false) :
    try_once_compare_exchange_weak st current expect desire b =
      (CmpxchResult.Unexpected current, st) := by
  simp [try_once_compare_exchange_weak, h]

theorem try_once_spurious {st current : T} {expect : T → Bool}
    {desire : T → T} (h : expect current = true) :
    try_once_compare_exchange_weak st current expect desire true =
      (CmpxchResult.Fail st, st) := by
  simp [try_once_compare_exchange_weak, AtomicCell.compare_exchange_weak, h]

theorem try_once_succ_of_eq {st current : T} {expect : T → Bool}
    {desire : T → T} (h : expect current = true) (he : st = current) :
    try_once_compare_exchange_weak st current expect desire false =
      (CmpxchResult.Succ st, desire current) := by
  simp [try_once_compare_exchange_weak, AtomicCell.compare_exchange_weak,
    AtomicCell.compare_exchange, h, he]

theorem try_once_fail_of_ne {st current : T} {expect : T → Bool}
    {desire : T → T} (h : expect current = true) (hne : st ≠ current) :
    try_once_compare_exchange_weak st current expect desire false =
      (CmpxchResult.Fail st, st) := by
  simp [try_once_compare_exchange_weak, AtomicCell.compare_exchange_weak,
    AtomicCell.compare_exchange, h, hne]

theorem try_once_succ_inv {st current x st2 : T} {expect : T → Bool}
    {desire : T → T} {b : Bool}
    (h : try_once_compare_exchange_weak st current expect desire b =
      (CmpxchResult.Succ x, st2)) :
    expect current = true ∧ b = false ∧ st = current ∧ x = current ∧
      st2 = desire current := by
  by_cases hex : expect current = true
  · cases b with
    | true =>
      rw [try_once_spurious hex] at h
      exact absurd (congrArg (fun q => q.1) h) (by simp)
    | false =>
      by_cases he : st = current
      · rw [try_once_succ_of_eq hex he] at h
        obtain ⟨h1, h2⟩ := Prod.mk.injEq .. ▸ h
        refine ⟨hex, rfl, he, ?_, h2.symm⟩
        have hx : st = x := CmpxchResult.Succ.injEq .. ▸ h1
        exact hx ▸ he
      · rw [try_once_fail_of_ne hex he] at h
        exact absurd (congrArg (fun q => q.1) h) (by simp)
  · rw [try_once_expect_false (Bool.not_eq_true _ ▸ hex)] at h
    exact absurd (congrArg (fun q => q.1) h) (by simp)

theorem try_once_fail_inv {st current x st2 : T} {expect : T → Bool}
    {desire : T → T} {b : Bool}
    (h : try_once_compare_exchange_weak st current expect desire b =
      (CmpxchResult.Fail x, st2)) :
    expect current = true ∧ x = st ∧ st2 = st := by
  by_cases hex : expect current = true
  · cases b with
    | true =>
      rw [try_once_spurious hex] at h
      obtain ⟨h1, h2⟩ := Prod.mk.injEq .. ▸ h
      exact ⟨hex, (CmpxchResult.Fail.injEq .. ▸ h1).symm, h2.symm⟩
    | false =>
      by_cases he : st = current
      · rw [try_once_succ_of_eq hex he] at h
        exact absurd (congrArg (fun q => q.1) h) (by simp)
      · rw [try_once_fail_of_ne hex he] at h
        obtain ⟨h1, h2⟩ := Prod.mk.injEq .. ▸ h
        exact ⟨hex, (CmpxchResult.Fail.injEq .. ▸ h1).symm, h2.symm⟩
  · rw [try_once_expect_false (Bool.not_eq_true _ ▸ hex)] at h
    exact absurd (congrArg (fun q => q.1) h) (by simp)

theorem try_once_unexpected_inv {st current x st2 : T} {expect : T → Bool}
    {desire : T → T} {b : Bool}
    (h : try_once_compare_exchange_weak st current expect desire b =
      (CmpxchResult.Unexpected x, st2)) :
    expect current = false ∧ x = current ∧ st2 = st := by
  by_cases hex : expect current = true
  · cases b with
    | true =>
      rw [try_once_spurious hex] at h
      exact absurd (congrArg (fun q => q.1) h) (by simp)
    | false =>
      by_cases he : st = current
      · rw [try_once_succ_of_eq hex he] at h
        exact absurd (congrArg (fun q => q.1) h) (by simp)
      · rw [try_once_fail_of_ne hex he] at h
        exact absurd (congrArg (fun q => q.1) h) (by simp)
  · have hex2 : expect current = false := Bool.not_eq_true _ ▸ hex
    rw [try_once_expect_false hex2] at h
    obtain ⟨h1, h2⟩ := Prod.mk.injEq .. ▸ h
    exact ⟨hex2, (CmpxchResult.Unexpected.injEq .. ▸ h1).symm, h2.symm⟩

end TryOnceLemmas

/-- A finite chain of `try_once` calls as the spec describes the spin
loop: the last call returns a non-`Fail` result, and every earlier call
returns `Fail x` whose carried value `x` is fed back in as the next call's
`current`.  The cell state each call runs against is existentially
quantified, since other threads may rewrite the cell between attempts. -/
inductive SpinSeq {T : Type} [DecidableEq T]
    (expect : T → Bool) (desire : T → T) : T → CmpxchResult T × T → Prop
  | last (st current : T) (b : Bool) (out : CmpxchResult T × T)
      (heq : try_once_compare_exchange_weak st current expect desire b = out)
      (hnf : out.1.is_fail = false) :
      SpinSeq expect desire current out
  | retry (st current x st2 : T) (b : Bool) (out : CmpxchResult T × T)
      (heq : try_once_compare_exchange_weak st current expect desire b =
        (CmpxchResult.Fail x, st2))
      (hrest : SpinSeq expect desire x out) :
      SpinSeq expect desire current out

section TrySpinLemmas

variable {T : Type} [DecidableEq T]

theorem try_spin_aux_spinSeq (expect : T → Bool) (desire : T → T) :
    ∀ (sched : List (SpinStep T)) (st current : T) (out : CmpxchResult T × T),
      try_spin_aux expect desire sched st current = some out →
      SpinSeq expect desire current out ∧ out.1.is_fail = false := by
  intro sched
  induction sched with
  | nil =>
    intro st current out h
    simp [try_spin_aux] at h
  | cons step rest ih =>
    intro st current out h
    rw [try_spin_aux] at h
    rcases hr : try_once_compare_exchange_weak (step.env st) current expect
        desire step.spurious with ⟨r, st2⟩
    rw [hr] at h
    cases r with
    | Succ x =>
      simp only [Option.some.injEq] at h
      refine ⟨SpinSeq.last (step.env st) current step.spurious out ?_ ?_, ?_⟩
      · rw [hr, h]
      · rw [← h]; simp [CmpxchResult.is_fail]
      · rw [← h]; simp [CmpxchResult.is_fail]
    | Unexpected x =>
      simp only [Option.some.injEq] at h
      refine ⟨SpinSeq.last (step.env st) current step.spurious out ?_ ?_, ?_⟩
      · rw [hr, h]
      · rw [← h]; simp [CmpxchResult.is_fail]
      · rw [← h]; simp [CmpxchResult.is_fail]
    | Fail x =>
      obtain ⟨hseq, hnf⟩ := ih st2 x out h
      exact ⟨SpinSeq.retry (step.env st) current x st2 step.spurious out hr
        hseq, hnf⟩

theorem try_spin_aux_succ_expect (expect : T → Bool) (desire : T → T) :
    ∀ (sched : List (SpinStep T)) (st current x : T)
      (out : CmpxchResult T × T),
      try_spin_aux expect desire sched st current = some out →
      out.1 = CmpxchResult.Succ x → expect x = true := by
  intro sched
  induction sched with
  | nil =>
    intro st current x out h
    simp [try_spin_aux] at h
  | cons step rest ih =>
    intro st current x out h hx
    rw [try_spin_aux] at h
    rcases hr : try_once_compare_exchange_weak (step.env st) current expect
        desire step.spurious with ⟨r, st2⟩
    rw [hr] at h
    cases r with
    | Succ y =>
      simp only [Option.some.injEq] at h
      rw [← h] at hx
      obtain ⟨hex, _, _, hcur, _⟩ := try_once_succ_inv hr
      have hyx : y = x := by simpa using hx
      rw [← hyx, hcur]
      exact hex
    | Unexpected y =>
      simp only [Option.some.injEq] at h
      rw [← h] at hx
      exact absurd hx (by simp)
    | Fail y => exact ih st2 y x out h hx

theorem try_spin_aux_quiet (expect : T → Bool) (desire : T → T) :
    ∀ (bs : List Bool) (st : T) (out : CmpxchResult T × T),
      try_spin_aux expect desire (bs.map SpinStep.quiet) st st = some out →
      (expect st = false → out = (CmpxchResult.Unexpected st, st)) ∧
      (expect st = true → out = (CmpxchResult.Succ st, desire st)) := by
  intro bs
  induction bs with
  | nil =>
    intro st out h
    simp [try_spin_aux] at h
  | cons b rest ih =>
    intro st out h
    simp only [List.map] at h
    rw [try_spin_aux] at h
    simp only [SpinStep.quiet, id] at h
    by_cases hex : expect st = true
    · refine ⟨fun hf => absurd (hf ▸ hex) (by simp), fun _ => ?_⟩
      cases b with
      | true =>
        rw [try_once_spurious hex] at h
        exact (ih st out h).2 hex
      | false =>
        rw [try_once_succ_of_eq hex rfl] at h
        simpa using h.symm
    · have hex2 : expect st = false := Bool.not_eq_true _ ▸ hex
      refine ⟨fun _ => ?_, fun ht => absurd (ht ▸ hex2) (by simp)⟩
      rw [try_once_expect_false hex2] at h
      simpa using h.symm

theorem try_spin_eq_aux (st : T) (expect : T → Bool) (desire : T → T)
    (sched : List (SpinStep T)) :
    try_spin_compare_exchange_weak st expect desire sched =
      try_spin_aux expect desire sched st st := rfl

end TrySpinLemmas

/-- Claim C1, counterexample: with the cell holding 0, `current = 0`, an
always-true predicate and the transform `v + 1`, the weak CAS succeeds
(the comparand matches and the attempt is not spurious), yet the
`Succ` variant carries 0, the previously stored value, and not the
transform's output `desire 0 = 1`. -/
theorem C1_counterexample :
    (try_once_compare_exchange_weak (0 : Nat) 0 (fun _ => true)
        (fun v => v + 1) false).1 = CmpxchResult.Succ 0 ∧
      CmpxchResult.Succ (0 : Nat) ≠ CmpxchResult.Succ 1 := by
  exact ⟨rfl, by decide⟩

/-- Claim C1 as amended: for every starting value `current` satisfying the
predicate, when the weak CAS of `try_once_compare_exchange_weak` succeeds
the returned `Succ` variant carries the previously stored value, which
equals `current` (the value now stored in the cell is the transform's
output `desire current`); on CAS failure it returns `Fail` carrying the
actually observed value. -/
theorem C1_try_once_succ_carries_previous {T : Type} [DecidableEq T]
    (st current : T) (expect : T → Bool) (desire : T → T) (b : Bool)
    (hex : expect current = true) :
    (st = current ∧ b = false →
      try_once_compare_exchange_weak st current expect desire b =
        (CmpxchResult.Succ current, desire current)) ∧
    (st ≠ current ∨ b = true →
      try_once_compare_exchange_weak st current expect desire b =
        (CmpxchResult.Fail st, st)) := by
  constructor
  · rintro ⟨he, hb⟩
    subst hb
    rw [try_once_succ_of_eq hex he, he]
  · rintro (hne | hb)
    · cases b with
      | true => exact try_once_spurious hex
      | false => exact try_once_fail_of_ne hex hne
    · subst hb
      exact try_once_spurious hex

/-- Witness for C1: the amended statement evaluated at cell value 5 with
transform `v + 1`. -/
theorem C1_witness :
    try_once_compare_exchange_weak (5 : Nat) 5 (fun _ => true)
        (fun v => v + 1) false = (CmpxchResult.Succ 5, 6) :=
  (C1_try_once_succ_carries_previous 5 5 (fun _ => true) (fun v => v + 1)
    false rfl).1 ⟨rfl, rfl⟩

/-- Claim C2: whenever the spin loop returns, its result is the result of
some finite chain of `try_once` calls, each retry feeding the value
carried by the previous `Fail` result back in as `current`, the chain ends
in a non-`Fail` result, and in particular the returned value is never the
`Fail` (Contended) variant: it is `Succ` or `Unexpected`. -/
theorem C2_try_spin_refines_try_once_chain {T : Type} [DecidableEq T]
    (st : T) (expect : T → Bool) (desire : T → T)
    (sched : List (SpinStep T)) (out : CmpxchResult T × T)
    (h : try_spin_compare_exchange_weak st expect desire sched = some out) :
    SpinSeq expect desire st out ∧ out.1.is_fail = false ∧
      (out.1.is_succ = true ∨ out.1.is_unexpected = true) := by
  rw [try_spin_eq_aux] at h
  obtain ⟨hseq, hnf⟩ := try_spin_aux_spinSeq expect desire sched st st out h
  refine ⟨hseq, hnf, ?_⟩
  cases hout : out.1 with
  | Succ x => exact Or.inl rfl
  | Fail x => rw [hout] at hnf; exact absurd hnf (by simp [CmpxchResult.is_fail])
  | Unexpected x => exact Or.inr rfl

/-- Witness for C2: a one-step spin from cell value 0 with an always-true
predicate and transform `v + 1` ends in `Succ 0` with the cell holding 1. -/
theorem C2_witness :
    SpinSeq (fun _ => true) (fun v : Nat => v + 1) 0
        (CmpxchResult.Succ 0, 1) ∧
      (CmpxchResult.Succ (0 : Nat), 1).1.is_fail = false ∧
      ((CmpxchResult.Succ (0 : Nat), 1).1.is_succ = true ∨
        (CmpxchResult.Succ (0 : Nat), 1).1.is_unexpected = true) :=
  C2_try_spin_refines_try_once_chain 0 (fun _ => true) (fun v => v + 1)
    [SpinStep.quiet false] (CmpxchResult.Succ 0, 1) rfl

/-- Claim C4: when the predicate rejects `current`,
`try_once_compare_exchange_weak` returns `Unexpected current` with the
cell unchanged, and its result does not depend on the transform at all
(the transform is never invoked, no CAS is attempted). -/
theorem C4_try_once_reject_no_cas {T : Type} [DecidableEq T]
    (st current : T) (expect : T → Bool) (d1 d2 : T → T) (b : Bool)
    (h : expect current = false) :
    try_once_compare_exchange_weak st current expect d1 b =
      (CmpxchResult.Unexpected current, st) ∧
    try_once_compare_exchange_weak st current expect d1 b =
      try_once_compare_exchange_weak st current expect d2 b := by
  refine ⟨try_once_expect_false h, ?_⟩
  rw [try_once_expect_false h, try_once_expect_false h]

/-- Witness for C4: an always-false predicate on cell value 3 rejects with
the cell untouched, for two different transforms. -/
theorem C4_witness :
    try_once_compare_exchange_weak (3 : Nat) 4 (fun _ => false)
        (fun v => v + 1) true = (CmpxchResult.Unexpected 4, 3) ∧
      try_once_compare_exchange_weak (3 : Nat) 4 (fun _ => false)
          (fun v => v + 1) true =
        try_once_compare_exchange_weak 3 4 (fun _ => false)
          (fun v => v * 2) true :=
  C4_try_once_reject_no_cas 3 4 (fun _ => false) (fun v => v + 1)
    (fun v => v * 2) true rfl

/-- Claim C7, counterexample: the strong compare-exchange with cell value
0, `current = 0` and `desired = 5` succeeds but returns the previous value
0, not the new value 5. -/
theorem C7_counterexample :
    (AtomicCell.compare_exchange (0 : Nat) 0 5).1 = Except.ok 0 ∧
      (Except.ok (0 : Nat) : Except Nat Nat) ≠ Except.ok 5 := by
  refine ⟨rfl, fun h => ?_⟩
  injection h with h2
  exact absurd h2 (by decide)

/-- Claim C7 as amended: the strong `compare_exchange` returns the
previous value (guaranteed equal to `current`) on success, with `desired`
now stored, and the actually observed value on failure with the cell
unchanged; it never fails when the observed value equals `current`. -/
theorem C7_compare_exchange_strong {T : Type} [DecidableEq T]
    (st current desired : T) :
    (st = current →
      AtomicCell.compare_exchange st current desired =
        (Except.ok current, desired)) ∧
    (st ≠ current →
      AtomicCell.compare_exchange st current desired =
        (Except.error st, st)) := by
  constructor
  · intro he
    simp [AtomicCell.compare_exchange, he]
  · intro hne
    simp [AtomicCell.compare_exchange, hne]

/-- Witness for C7: the amended statement evaluated at a matching CAS
from 7 to 9 and a failing CAS of 8 against 7. -/
theorem C7_witness :
    AtomicCell.compare_exchange (7 : Nat) 7 9 = (Except.ok 7, 9) ∧
      AtomicCell.compare_exchange (8 : Nat) 7 9 = (Except.error 8, 8) :=
  ⟨(C7_compare_exchange_strong 7 7 9).1 rfl,
    (C7_compare_exchange_strong 8 7 9).2 (by decide)⟩

/-- Claim C8: the narrowing of `CmpxchResult` to a binary result maps
`Succ v` to `Ok v`, and both `Fail v` and `Unexpected v` to `Err v`,
preserving the carried value in every case (every result is `Ok` or `Err`
of its own carried value). -/
theorem C8_toResult_is_lossy_narrowing {T : Type} (t : T) :
    CmpxchResult.toResult (CmpxchResult.Succ t) = Except.ok t ∧
    CmpxchResult.toResult (CmpxchResult.Fail t) = Except.error t ∧
    CmpxchResult.toResult (CmpxchResult.Unexpected t) = Except.error t ∧
    ∀ r : CmpxchResult T,
      CmpxchResult.toResult r = Except.ok r.into_inner ∨
      CmpxchResult.toResult r = Except.error r.into_inner := by
  refine ⟨rfl, rfl, rfl, fun r => ?_⟩
  cases r with
  | Succ t => exact Or.inl rfl
  | Fail t => exact Or.inr rfl
  | Unexpected t => exact Or.inr rfl

/-- Claim C10: `AtomexPtr::load` returns `None` exactly when the stored
pointer is null, otherwise `Some` of a wrapper around the same address,
and it never alters the slot. -/
theorem C10_load_none_iff_null (st : Ptr) :
    ((AtomexPtr.load st).1 = none ↔ st = Ptr.null) ∧
    (st ≠ Ptr.null →
      (AtomexPtr.load st).1 = some (NonNullPtr.new_unchecked st)) ∧
    (AtomexPtr.load st).2 = st := by
  refine ⟨?_, fun h => ?_, rfl⟩
  · by_cases h : st = Ptr.null <;>
      simp [AtomexPtr.load, AtomexPtr.pointer, AtomicCell.load,
        NonNullPtr.new, h]
  · simp [AtomexPtr.load, AtomexPtr.pointer, AtomicCell.load,
      NonNullPtr.new, NonNullPtr.new_unchecked, h]

/-- Witness for C10: loading the slot holding address 3 yields `Some` of
the wrapper around 3. -/
theorem C10_witness :
    (AtomexPtr.load 3).1 = some (NonNullPtr.new_unchecked 3) :=
  (C10_load_none_iff_null 3).2.1 (by decide)

section AtomexPtrLemmas

theorem try_reset_quiet_spec (st : Ptr) (bs : List Bool)
    (out : Except Ptr NonNullPtr × Ptr)
    (h : AtomexPtr.try_reset st (bs.map SpinStep.quiet) = some out) :
    (st = Ptr.null → out = (Except.error Ptr.null, st)) ∧
    (st ≠ Ptr.null →
      out = (Except.ok (NonNullPtr.new_unchecked st), Ptr.null)) := by
  rw [AtomexPtr.try_reset] at h
  split at h
  · exact absurd h (by simp)
  · next r st2 heq =>
    simp only [Option.some.injEq] at h
    rw [try_spin_eq_aux] at heq
    obtain ⟨hfalse, htrue⟩ :=
      try_spin_aux_quiet AtomexPtr.expect_not_null AtomexPtr.desire_ptr_null
        bs st (r, st2) heq
    constructor
    · intro hz
      subst hz
      have hex : AtomexPtr.expect_not_null Ptr.null = false := by
        simp [AtomexPtr.expect_not_null, Ptr.is_null]
      obtain ⟨hr, hst2⟩ := Prod.mk.injEq .. ▸ hfalse hex
      rw [← h, hr, hst2]
      rfl
    · intro hnn
      have hex : AtomexPtr.expect_not_null st = true := by
        simp [AtomexPtr.expect_not_null, Ptr.is_null, hnn]
      obtain ⟨hr, hst2⟩ := Prod.mk.injEq .. ▸ htrue hex
      rw [← h, hr, hst2]
      rfl

theorem try_spin_init_quiet_spec (st : Ptr) (p : NonNullPtr)
    (bs : List Bool) (out : Except NonNullPtr Ptr × Ptr)
    (h : AtomexPtr.try_spin_init st p (bs.map SpinStep.quiet) = some out) :
    (st = Ptr.null → out = (Except.ok Ptr.null, p.ptr)) ∧
    (st ≠ Ptr.null →
      out = (Except.error (NonNullPtr.new_unchecked st), st)) := by
  rw [AtomexPtr.try_spin_init] at h
  split at h
  · exact absurd h (by simp)
  · next r st2 heq =>
    simp only [Option.some.injEq] at h
    rw [try_spin_eq_aux] at heq
    obtain ⟨hfalse, htrue⟩ :=
      try_spin_aux_quiet (fun x : Ptr => Ptr.is_null x)
        (fun _ : Ptr => p.ptr) bs st (r, st2) heq
    constructor
    · intro hz
      subst hz
      have hex : Ptr.is_null Ptr.null = true := by
        simp [Ptr.is_null]
      obtain ⟨hr, hst2⟩ := Prod.mk.injEq .. ▸ htrue hex
      rw [← h, hr, hst2]
      rfl
    · intro hnn
      have hex : Ptr.is_null st = false := by
        simp [Ptr.is_null, hnn]
      obtain ⟨hr, hst2⟩ := Prod.mk.injEq .. ▸ hfalse hex
      rw [← h, hr, hst2]
      rfl

theorem try_compare_and_reset_quiet_spec (st : Ptr) (p : NonNullPtr)
    (bs : List Bool) (out : Except Ptr NonNullPtr × Ptr)
    (h : AtomexPtr.try_spin_compare_and_reset st p
      (bs.map SpinStep.quiet) = some out) :
    (st = p.ptr → out = (Except.ok (NonNullPtr.new_unchecked p.ptr),
      Ptr.null)) ∧
    (st ≠ p.ptr → out = (Except.error st, st)) := by
  rw [AtomexPtr.try_spin_compare_and_reset] at h
  split at h
  · exact absurd h (by simp)
  · next r st2 heq =>
    simp only [Option.some.injEq] at h
    rw [try_spin_eq_aux] at heq
    obtain ⟨hfalse, htrue⟩ :=
      try_spin_aux_quiet (fun x : Ptr => x == p.ptr)
        AtomexPtr.desire_ptr_null bs st (r, st2) heq
    constructor
    · intro he
      have hex : (st == p.ptr) = true := by simp [he]
      obtain ⟨hr, hst2⟩ := Prod.mk.injEq .. ▸ htrue hex
      rw [← h, hr, hst2, he]
      rfl
    · intro hne
      have hex : (st == p.ptr) = false := by simp [hne]
      obtain ⟨hr, hst2⟩ := Prod.mk.injEq .. ▸ hfalse hex
      rw [← h, hr, hst2]
      rfl

end AtomexPtrLemmas

/-- Claim C3: `try_spin_compare_and_reset p` never vacates a slot whose
occupant is not pointer-identical to `p`: under any interference and any
spurious-failure pattern, a returned `Ok` always carries exactly `p` (the
CAS only ever overwrote the value `p` itself); and run without
interference, it returns `Err` with the observed value and the slot
unchanged when the occupant differs from `p`, and nulls the slot and
returns `Ok p` when it equals `p`. -/
theorem C3_compare_and_reset_exact (st : Ptr) (p : NonNullPtr)
    (sched : List (SpinStep Ptr)) (bs : List Bool)
    (out outq : Except Ptr NonNullPtr × Ptr) :
    (AtomexPtr.try_spin_compare_and_reset st p sched = some out →
      ∀ q, out.1 = Except.ok q → q = p) ∧
    (AtomexPtr.try_spin_compare_and_reset st p (bs.map SpinStep.quiet) =
        some outq →
      (st ≠ p.ptr → outq = (Except.error st, st)) ∧
      (st = p.ptr → outq = (Except.ok p, Ptr.null))) := by
  constructor
  · intro h q hq
    rw [AtomexPtr.try_spin_compare_and_reset] at h
    split at h
    · exact absurd h (by simp)
    · next r st2 heq =>
      simp only [Option.some.injEq] at h
      rw [← h] at hq
      cases r with
      | Succ x =>
        rw [try_spin_eq_aux] at heq
        have hex : (x == p.ptr) = true :=
          try_spin_aux_succ_expect (fun y : Ptr => y == p.ptr)
            AtomexPtr.desire_ptr_null sched st st x (CmpxchResult.Succ x, st2)
            heq rfl
        have hx : x = p.ptr := by simpa using hex
        have hq2 : q = NonNullPtr.new_unchecked x := by
          simpa [CmpxchResult.toResult, Except.map] using hq.symm
        rw [hq2, hx]
        rfl
      | Fail x =>
        exact absurd hq (by simp [CmpxchResult.toResult, Except.map])
      | Unexpected x =>
        exact absurd hq (by simp [CmpxchResult.toResult, Except.map])
  · intro h
    obtain ⟨heqp, hnep⟩ := try_compare_and_reset_quiet_spec st p bs outq h
    exact ⟨hnep, fun he => by rw [heqp he]; rfl⟩

/-- Witness for C3: a successful conditional reset on a slot holding 7
returns exactly the expected pointer, and on a slot holding address 2
comparing against the pointer wrapping 7 fails and leaves the slot
holding 2. -/
theorem C3_witness :
    NonNullPtr.new_unchecked 7 = (⟨7⟩ : NonNullPtr) ∧
      (((2 : Ptr) ≠ (7 : Ptr) →
          ((Except.error 2, 2) : Except Ptr NonNullPtr × Ptr) =
            (Except.error 2, 2)) ∧
        ((2 : Ptr) = (7 : Ptr) →
          ((Except.error 2, 2) : Except Ptr NonNullPtr × Ptr) =
            (Except.ok ⟨7⟩, Ptr.null))) :=
  ⟨(C3_compare_and_reset_exact 7 ⟨7⟩ [SpinStep.quiet false] [false]
      (Except.ok (NonNullPtr.new_unchecked 7), Ptr.null)
      (Except.error 2, 2)).1 rfl (NonNullPtr.new_unchecked 7) rfl,
    (C3_compare_and_reset_exact 2 ⟨7⟩ [] [false] (Except.error 2, 2)
      (Except.error 2, 2)).2 rfl⟩

/-- Claim C5: claiming an empty slot with the non-null pointer `p` via
`try_spin_init` and then releasing it via `try_reset` restores the slot to
null, and the value returned by the successful release equals `p`. -/
theorem C5_claim_release_roundtrip (p : NonNullPtr) (bs1 bs2 : List Bool)
    (out1 : Except NonNullPtr Ptr × Ptr)
    (out2 : Except Ptr NonNullPtr × Ptr)
    (hp : p.ptr ≠ Ptr.null)
    (h1 : AtomexPtr.try_spin_init Ptr.null p (bs1.map SpinStep.quiet) =
      some out1)
    (h2 : AtomexPtr.try_reset out1.2 (bs2.map SpinStep.quiet) = some out2) :
    out1.1 = Except.ok Ptr.null ∧ out1.2 = p.ptr ∧
      out2.1 = Except.ok p ∧ out2.2 = Ptr.null := by
  have hout1 := (try_spin_init_quiet_spec Ptr.null p bs1 out1 h1).1 rfl
  have h12 : out1.1 = Except.ok Ptr.null := by rw [hout1]
  have h22 : out1.2 = p.ptr := by rw [hout1]
  rw [h22] at h2
  have hout2 := (try_reset_quiet_spec p.ptr bs2 out2 h2).2 hp
  refine ⟨h12, h22, ?_, by rw [hout2]⟩
  rw [hout2]
  rfl

/-- Witness for C5: claiming the empty slot with the pointer wrapping 5
and then releasing it, each with a single non-spurious attempt. -/
theorem C5_witness :
    ((Except.ok Ptr.null, (5 : Ptr)) : Except NonNullPtr Ptr × Ptr).1 =
        Except.ok Ptr.null ∧
      ((Except.ok Ptr.null, (5 : Ptr)) : Except NonNullPtr Ptr × Ptr).2 =
        NonNullPtr.ptr ⟨5⟩ ∧
      ((Except.ok ⟨5⟩, Ptr.null) : Except Ptr NonNullPtr × Ptr).1 =
        Except.ok ⟨5⟩ ∧
      ((Except.ok ⟨5⟩, Ptr.null) : Except Ptr NonNullPtr × Ptr).2 =
        Ptr.null :=
  C5_claim_release_roundtrip ⟨5⟩ [false] [false]
    (Except.ok Ptr.null, 5) (Except.ok ⟨5⟩, Ptr.null)
    (by decide) rfl rfl

/-- Claim C6: `try_reset` succeeds exactly when the slot holds a non-null
pointer: on success it nulls the slot and returns `Ok` carrying the freed
occupant; on a slot already null it returns `Err` carrying the null
pointer and leaves the slot unchanged. -/
theorem C6_try_reset_succeeds_iff_nonnull (st : Ptr) (bs : List Bool)
    (out : Except Ptr NonNullPtr × Ptr)
    (h : AtomexPtr.try_reset st (bs.map SpinStep.quiet) = some out) :
    (st ≠ Ptr.null →
      out = (Except.ok (NonNullPtr.new_unchecked st), Ptr.null)) ∧
    (st = Ptr.null → out = (Except.error Ptr.null, st)) := by
  obtain ⟨hz, hnn⟩ := try_reset_quiet_spec st bs out h
  exact ⟨hnn, hz⟩

/-- Witness for C6: releasing a slot holding address 4 returns the wrapper
around 4 and nulls the slot. -/
theorem C6_witness :
    ((4 : Ptr) ≠ Ptr.null →
      ((Except.ok (NonNullPtr.new_unchecked 4), Ptr.null) :
          Except Ptr NonNullPtr × Ptr) =
        (Except.ok (NonNullPtr.new_unchecked 4), Ptr.null)) ∧
    ((4 : Ptr) = Ptr.null →
      ((Except.ok (NonNullPtr.new_unchecked 4), Ptr.null) :
          Except Ptr NonNullPtr × Ptr) = (Except.error Ptr.null, 4)) :=
  C6_try_reset_succeeds_iff_nonnull 4 [false]
    (Except.ok (NonNullPtr.new_unchecked 4), Ptr.null) rfl

section CounterLemmas

theorem runCountOps_formula (w : Nat) :
    ∀ (ops : List CountOp) (st : Nat), st < 2 ^ w →
      runCountOps w ops st =
        (st + countInc ops +
          countDec ops * (2 ^ w - 1 % 2 ^ w)) % 2 ^ w := by
  have hpos : 0 < 2 ^ w := pow_pos (by norm_num) w
  intro ops
  induction ops with
  | nil =>
    intro st hst
    simp [runCountOps, countInc, countDec, Nat.mod_eq_of_lt hst]
  | cons op rest ih =>
    intro st hst
    cases op with
    | inc =>
      have hst1 : (st + 1) % 2 ^ w < 2 ^ w := Nat.mod_lt _ hpos
      have hrw := ih ((st + 1) % 2 ^ w) hst1
      simp only [runCountOps, AtomicCount.inc, AtomicCount.add,
        AtomicCount.fetch_add, countInc, countDec]
      rw [hrw, Nat.add_assoc ((st + 1) % 2 ^ w), Nat.mod_add_mod]
      congr 1
      generalize (2 ^ w - 1 % 2 ^ w) = X
      ring
    | dec =>
      have hst1 : (st + (2 ^ w - 1 % 2 ^ w)) % 2 ^ w < 2 ^ w :=
        Nat.mod_lt _ hpos
      have hrw := ih ((st + (2 ^ w - 1 % 2 ^ w)) % 2 ^ w) hst1
      simp only [runCountOps, AtomicCount.dec, AtomicCount.sub,
        AtomicCount.fetch_sub, countInc, countDec]
      rw [hrw, Nat.add_assoc ((st + (2 ^ w - 1 % 2 ^ w)) % 2 ^ w),
        Nat.mod_add_mod]
      congr 1
      generalize (2 ^ w - 1 % 2 ^ w) = X
      ring

theorem runCountOps_balanced (w : Nat) (ops : List CountOp)
    (h : countInc ops = countDec ops) : runCountOps w ops 0 = 0 := by
  have hpos : 0 < 2 ^ w := pow_pos (by norm_num) w
  rw [runCountOps_formula w ops 0 hpos, h]
  by_cases hw : 2 ^ w = 1
  · rw [hw, Nat.mod_one]
  · have h2 : 2 ≤ 2 ^ w := by omega
    have hone : 1 % 2 ^ w = 1 := Nat.mod_eq_of_lt (by omega)
    rw [hone]
    have hsum : 0 + countDec ops + countDec ops * (2 ^ w - 1) =
        countDec ops * 2 ^ w := by
      rcases Nat.exists_eq_add_of_le h2 with ⟨m, hm⟩
      rw [hm]
      have hmm : 2 + m - 1 = m + 1 := by omega
      rw [hmm]
      ring
    rw [hsum, Nat.mul_mod_left]

theorem sub_add_cancel_mod (w st v : Nat) :
    ((AtomicCount.sub w st v).2 + v) % 2 ^ w = st % 2 ^ w := by
  have hpos : 0 < 2 ^ w := pow_pos (by norm_num) w
  simp only [AtomicCount.sub, AtomicCount.fetch_sub]
  rw [Nat.mod_add_mod]
  have hdm := Nat.div_add_mod v (2 ^ w)
  have hmlt : v % 2 ^ w < 2 ^ w := Nat.mod_lt _ hpos
  have heq : st + (2 ^ w - v % 2 ^ w) + v = st + 2 ^ w * (v / 2 ^ w + 1) := by
    rw [Nat.mul_add, Nat.mul_one]
    omega
  rw [heq, Nat.add_mul_mod_self_left]

end CounterLemmas

/-- Claim C9: `AtomicCount.add v` returns the previous stored value and
stores `previous + v` reduced modulo `2 ^ w` (wrapping on overflow), and
`sub v` likewise returns the previous value and stores the wrapping
difference (adding `v` back recovers the previous value modulo `2 ^ w`);
consequently any sequence of `inc` and `dec` calls with equally many of
each brings a counter that starts at 0 back to 0. -/
theorem C9_counter_wrapping (w st v : Nat) (ops : List CountOp) :
    (AtomicCount.add w st v).1 = st ∧
    (AtomicCount.add w st v).2 = (st + v) % 2 ^ w ∧
    (AtomicCount.sub w st v).1 = st ∧
    ((AtomicCount.sub w st v).2 + v) % 2 ^ w = st % 2 ^ w ∧
    (countInc ops = countDec ops → runCountOps w ops 0 = 0) :=
  ⟨rfl, rfl, rfl, sub_add_cancel_mod w st v,
    fun h => runCountOps_balanced w ops h⟩

/-- Witness for C9: an 8-bit counter, one `add`/`sub` pair at value 200,
and the balanced sequence inc, inc, dec, dec run from 0. -/
theorem C9_witness :
    (AtomicCount.add 8 200 100).1 = 200 ∧
    (AtomicCount.add 8 200 100).2 = (200 + 100) % 2 ^ 8 ∧
    (AtomicCount.sub 8 200 100).1 = 200 ∧
    ((AtomicCount.sub 8 200 100).2 + 100) % 2 ^ 8 = 200 % 2 ^ 8 ∧
    runCountOps 8 [CountOp.inc, CountOp.inc, CountOp.dec, CountOp.dec]
      0 = 0 := by
  have h := C9_counter_wrapping 8 200 100
    [CountOp.inc, CountOp.inc, CountOp.dec, CountOp.dec]
  exact ⟨h.1, h.2.1, h.2.2.1, h.2.2.2.1, h.2.2.2.2 (by decide)⟩
